import Mathlib

/-!
Shallow embedding of the Cooking-Assistance repository
(`assistance.py`, `peripheral.py`) and proofs about the claims of its
specification.

Conventions of the embedding:
* Python lists become `List`, dicts with a fixed field set become
  structures, JSON-string round-trips (`json.loads` / `json.dumps`) on the
  assistant payloads become a tagged `Content` type: a string that decodes
  is carried as its decoded record, a string that does not decode is
  carried raw.
* `time.time()` instants are modelled as natural numbers; only `now + d`
  and order comparisons are used by the code.
* I/O (printing, the debug dump `_save_history`, the HTTP transport) is
  outside the model; the oracle call outcome is a parameter.
-/

namespace Cooking

/-- The turn context serialized into the text block of a user message by
`CookingAssistant.call_gpt_api` (assistance.py:278-287).  The fields
`goal`, `valid_next_states` and `timestamp` are serialized too but never
read back by any operation of the program, so they are elided here;
`current_state` is read by `_prune_active_cooking_images` and
`user_voice` / `image_provided` carry the oracle request content. -/
structure TurnCtx where
  current_state : String
  user_voice : String
  image_provided : Bool
deriving DecidableEq

/-- One element of a multimodal user-message content list
(assistance.py:287-292).  A text item either holds a JSON context that
`json.loads` decodes (`textCtx`) or a plain string that fails to decode,
such as the pruning placeholder note (`textRaw`). -/
inductive Item
  | textCtx (ctx : TurnCtx)
  | textRaw (s : String)
  | imageUrl (url : String)
deriving DecidableEq

/-- Python `item.get("type")` on a content-list element. -/
def Item.itemType : Item → String
  | .textCtx _ => "text"
  | .textRaw _ => "text"
  | .imageUrl _ => "image_url"

/-- The decoded assistant JSON object (the oracle decision contract,
assistance.py:213-221 and the fields read at assistance.py:165-183 and
394-400).  `monitor_count` and `debug_note` are absent on fresh oracle
output and written by the merge pass; `.get` defaults (1 and "") follow
the source.  `thought_process` is only printed and is elided. -/
structure AJson where
  status : String := ""
  speech_output : String := ""
  monitor_count : Option Nat := none
  debug_note : String := ""
  next_state : Option String := none
  timer_name : Option String := none
  timer_duration : Option Int := none
deriving DecidableEq

/-- The `content` field of a history entry: either a Python list of items
(user messages) or a Python string (assistant messages), the latter split
by whether `json.loads` succeeds on it. -/
inductive Content
  | items (l : List Item)
  | jsonStr (j : AJson)
  | rawStr (s : String)
deriving DecidableEq

/-- One entry of `self.history`: `{"role": role, "content": content}`
(assistance.py:194). -/
structure Entry where
  role : String
  content : Content
deriving DecidableEq

instance : Inhabited Entry := ⟨⟨"", Content.rawStr ""⟩⟩

/-- Python `del l[-k]` (delete the k-th element from the end, `1 ≤ k ≤
l.length`). -/
def delNeg (l : List α) (k : Nat) : List α :=
  l.take (l.length - k) ++ l.drop (l.length - k + 1)

/-- Python `sub in s` on strings, as character-list containment. -/
def strIn (sub s : String) : Bool :=
  (List.range (s.length + 1)).any (fun k => sub.toList.isPrefixOf (s.toList.drop k))

/-- The first `"type": "text"` item of a content list —
`next(item for item in msg["content"] if item.get("type") == "text")`
(assistance.py:133). -/
def firstTextItem (l : List Item) : Option Item :=
  l.find? (fun it => it.itemType == "text")

/-- The candidate test of `_prune_active_cooking_images`
(assistance.py:124-139): a user message with list content that carries an
`image_url` item and whose first text item decodes to a context with
`current_state == "ACTIVE_COOKING"`.  A missing text item
(`StopIteration`) or an undecodable text item (`JSONDecodeError`) skips
the entry. -/
def isACImageEntry (e : Entry) : Bool :=
  e.role == "user" &&
  (match e.content with
   | Content.items l =>
     (l.any (fun it => it.itemType == "image_url")) &&
     (match firstTextItem l with
      | some (Item.textCtx ctx) => ctx.current_state == "ACTIVE_COOKING"
      | _ => false)
   | _ => false)

/-- The placeholder appended in place of a stripped image
(assistance.py:152-155). -/
def placeholderItem : Item :=
  Item.textRaw "[System Note: Older image data stripped to save memory]"

/-- The rewrite applied to one pruned entry (assistance.py:146-157):
drop every `image_url` item and append the placeholder text item. -/
def stripImage (e : Entry) : Entry :=
  match e.content with
  | Content.items l =>
    { e with content :=
        Content.items ((l.filter (fun it => it.itemType != "image_url")) ++ [placeholderItem]) }
  | _ => e

/-- The list `active_cooking_image_indices` (assistance.py:121-139): the indices of
candidate entries, in increasing order. -/
def candIdxs (h : List Entry) : List Nat :=
  (List.range h.length).filter (fun i => isACImageEntry (h.getD i default))

/-- Embedding of `CookingAssistant._prune_active_cooking_images` (assistance.py:116-159).
If more than 3 candidates exist, every candidate except the last 3
(`indices[:-3]`) is rewritten by `stripImage`; the in-place updates at
distinct indices are expressed as an index-aware map. -/
def prune_active_cooking_images (h : List Entry) : List Entry :=
  let idxs := candIdxs h
  if 3 < idxs.length then
    let toPrune := idxs.take (idxs.length - 3)
    h.mapIdx (fun i e => if toPrune.contains i then stripImage e else e)
  else h

/-- Embedding of `CookingAssistant.update_history` (assistance.py:161-200).  The
assistant-merge pass runs when the appended content decodes with
no-change status, empty speech and at least two prior entries, the entry
before the last is an assistant entry whose content decodes, and that
previous decision is (bare or already-counted) no-change; it bumps the
counter, rewrites the debug note, and deletes the previous user+assistant
pair (`del history[-3]; del history[-2]`) when at least three entries
exist.  After any append, a user-role append triggers the image-pruning
pass. -/
def update_history (history : List Entry) (role : String) (content : Content) : List Entry :=
  let merged : List Entry × Content :=
    match role == "assistant", content with
    | true, Content.jsonStr cj =>
      if cj.status == "MONITORING_NO_CHANGE" && cj.speech_output == ""
          && decide (2 ≤ history.length) then
        let prev := history.getD (history.length - 2) default
        if prev.role == "assistant" then
          match prev.content with
          | Content.jsonStr pj =>
            if pj.status == "MONITORING_NO_CHANGE" || strIn "MONITORING_NO_CHANGE *" pj.debug_note then
              let count := pj.monitor_count.getD 1 + 1
              let cj2 := { cj with monitor_count := some count,
                                   debug_note := "MONITORING_NO_CHANGE * " ++ toString count }
              let h2 := if 3 ≤ history.length then delNeg (delNeg history 3) 2 else history
              (h2, Content.jsonStr cj2)
            else (history, content)
          | _ => (history, content)
        else (history, content)
      else (history, content)
    | _, _ => (history, content)
  let h3 := merged.1 ++ [{ role := role, content := merged.2 }]
  if role == "user" then prune_active_cooking_images h3 else h3

/-- Embedding of `State` (assistance.py:16-21). -/
structure State where
  name : String
  description : String
  valid_next_states : List String
  requires_image : Bool
deriving DecidableEq

/-- Embedding of `self.states` (assistance.py:36-80), as an association list over the
dict's keys in insertion order.  The multi-line ACTIVE_COOKING
description is reproduced without the surrounding indentation
whitespace; no operation inspects description text. -/
def states : List (String × State) := [
  ("START",
   { name := "START",
     description := "Initial state. Introduce yourself and ask the human to show the ingredients.",
     valid_next_states := ["INGREDIENT_SCAN"],
     requires_image := false }),
  ("INGREDIENT_SCAN",
   { name := "INGREDIENT_SCAN",
     description := "Analyze the image to identify ingredients. Propose a dish based on them.",
     valid_next_states := ["RECIPE_CONFIRMATION", "INGREDIENT_SCAN"],
     requires_image := true }),
  ("RECIPE_CONFIRMATION",
   { name := "RECIPE_CONFIRMATION",
     description := "Negotiate with the human. If the human agrees to the dish, move to INSTRUCTION_OVERVIEW. If no, propose another dish.",
     valid_next_states := ["RECIPE_CONFIRMATION", "INSTRUCTION_OVERVIEW"],
     requires_image := true }),
  ("INSTRUCTION_OVERVIEW",
   { name := "INSTRUCTION_OVERVIEW",
     description := "Give a high-level overview of the instructions. If the user agrees to start, move to ACTIVE_COOKING",
     valid_next_states := ["INSTRUCTION_OVERVIEW", "ACTIVE_COOKING"],
     requires_image := false }),
  ("ACTIVE_COOKING",
   { name := "ACTIVE_COOKING",
     description := "The main execution loop.\n1. Instruct the user on the current step.\n2. Visually monitor progress.\n3. Answer ANY user questions.\n4. Handle timers.\n5. When the entire recipe is done, transition to FINISHED.",
     valid_next_states := ["ACTIVE_COOKING", "FINISHED"],
     requires_image := true }),
  ("FINISHED",
   { name := "FINISHED",
     description := "Congratulate the human and end the session.",
     valid_next_states := [],
     requires_image := false })]

/-- The key set of `self.states` (`next_state in self.states` tests dict
key membership). -/
def stateNames : List String := states.map (·.1)

/-- Lookup `self.states[name]`, as a partial function. -/
def lookupState (n : String) : Option State :=
  (states.find? (fun p => p.1 == n)).map (·.2)

/-- The transition tail of `CookingAssistant.run` (assistance.py:418-422):
`if next_state in self.states: current_state_name = next_state
 elif next_state == "FINISHED": break`.
Returns the new current state name and whether the loop breaks.  A `None`
`next_state` (absent JSON field) falls through both tests. -/
def applyTransition (current : String) (next_state : Option String) : String × Bool :=
  match next_state with
  | some ns =>
    if stateNames.contains ns then (ns, false)
    else if ns == "FINISHED" then (current, true)
    else (current, false)
  | none => (current, false)

/-- One armed timer `{'name': str, 'end_time': float}` (assistance.py:28).
Instants are modelled as integers; the code only forms `now + duration`
and compares with `>=`. -/
structure Timer where
  name : String
  end_time : Int
deriving DecidableEq

/-- The scan loop of `check_timers` (assistance.py:323-329): indices are
walked from the last to the first, each expired entry's name is appended
to `expired` and the entry deleted.  Recursion on the front of the list
reproduces that order: names of later entries come first. -/
def checkTimersAux (now : Int) : List Timer → List String × List Timer
  | [] => ([], [])
  | t :: ts =>
    let r := checkTimersAux now ts
    if t.end_time ≤ now then (r.1 ++ [t.name], r.2) else (r.1, t :: r.2)

/-- Embedding of `CookingAssistant.check_timers` (assistance.py:321-333): the combined
notification string when any timer expired, else `None`, together with
the surviving timer list. -/
def check_timers (now : Int) (timers : List Timer) : Option String × List Timer :=
  let r := checkTimersAux now timers
  (if r.1.isEmpty then none
   else some ("[System Notification: The following timers have finished: "
              ++ String.intercalate ", " r.1 ++ ". Please inform the user.]"),
   r.2)

/-- One poll iteration's view of the microphone: the value of
`mic.has_text()` and, when read, of `mic.read_text()`.  Successive list
elements are successive iterations of the 100ms-sleep poll loop, so a
list of length n spans the n polls that fit before the timeout elapses. -/
structure MicTick where
  hasText : Bool
  text : String
deriving DecidableEq

/-- Embedding of `CookingAssistant.listen` (assistance.py:90-103): poll `has_text`
once per 100ms tick; on a ready signal read the buffered text and return
it if non-empty; return the empty string when the tick budget (the
timeout) is exhausted. -/
def listen : List MicTick → String
  | [] => ""
  | tk :: rest =>
    if tk.hasText then
      (if tk.text == "" then listen rest else tk.text)
    else listen rest

/-- The inputs gathered by one cycle of `run` before the oracle call:
`user_voice`, `image_data`, and how many times `listen` was invoked. -/
structure GatherResult where
  user_voice : String
  image_data : Option String
  listenCalls : Nat
deriving DecidableEq

/-- The proactive (ACTIVE_COOKING) input-gathering block of `run`
(assistance.py:348-363): poll timers once; a notification becomes
`user_voice` (it is a non-empty string, so the subsequent
`if not user_voice` skips `listen` and `not timer_notification` skips
the capture); otherwise listen once, then capture when the state
requires an image. -/
def activeGather (timerPoll : Option String) (micTicks : List MicTick)
    (cameraImage : Option String) (requiresImage : Bool) : GatherResult :=
  match timerPoll with
  | some note => ⟨note, none, 0⟩
  | none =>
    let v := listen micTicks
    ⟨v, if requiresImage then cameraImage else none, 1⟩

/-- One iteration's inputs for the reactive wait loop
(assistance.py:369-381): the timer poll outcome and the mic's ticks for
that iteration's `listen(timeout=5)`. -/
structure ReactiveTick where
  timerPoll : Option String
  micTicks : List MicTick
deriving DecidableEq

/-- Outcome of the reactive wait loop: the voice text or timer
notification, whether it came from a timer, and how many `listen` calls
ran in the cycle. -/
structure WaitResult where
  user_voice : String
  fromTimer : Bool
  listenCalls : Nat
deriving DecidableEq

/-- The reactive wait loop of `run` (assistance.py:369-381): each
iteration first polls timers (a notification ends the wait at once,
before any `listen` of that iteration), then listens; a non-empty voice
reading ends the wait.  `none` means the modelled iteration budget ended
with the loop still waiting. -/
def reactiveWait : List ReactiveTick → Option WaitResult
  | [] => none
  | it :: rest =>
    match it.timerPoll with
    | some note => some ⟨note, true, 0⟩
    | none =>
      let v := listen it.micTicks
      if v == "" then
        (reactiveWait rest).map (fun w => { w with listenCalls := w.listenCalls + 1 })
      else some ⟨v, false, 1⟩

/-- The reactive input-gathering block of `run` (assistance.py:365-385):
the wait loop followed by `if requires_image and not timer_notification:
capture`. -/
def reactiveGather (ticks : List ReactiveTick) (cameraImage : Option String)
    (requiresImage : Bool) : Option GatherResult :=
  (reactiveWait ticks).map (fun w =>
    ⟨w.user_voice, if requiresImage && !w.fromTimer then cameraImage else none,
     w.listenCalls⟩)

/-- The user message built by `call_gpt_api` (assistance.py:278-292): a
text block holding the serialized turn context, plus the image attachment
when one was captured. -/
def userMessage (current_state : String) (user_voice : String)
    (image_base64 : Option String) : Content :=
  Content.items
    ([Item.textCtx { current_state := current_state, user_voice := user_voice,
                     image_provided := image_base64.isSome }] ++
     (match image_base64 with
      | some img => [Item.imageUrl ("data:image/jpeg;base64," ++ img)]
      | none => []))

/-- Outcome of the HTTP exchange inside `call_gpt_api`
(assistance.py:308-319): `failure` covers a transport exception, an
undecodable response body or an error-key response (return `None` before
any assistant append); `badContent` covers a delivered content string
that `json.loads` rejects — the source appends it to the history *before*
decoding, so the append happens and the decode error then returns `None`;
`ok` is a decodable decision. -/
inductive OracleOutcome
  | failure
  | badContent (raw : String)
  | ok (a : AJson)
deriving DecidableEq

/-- Embedding of `CookingAssistant.call_gpt_api` (assistance.py:202-319) with the
transport outcome as a parameter: append the user turn request to the
history (triggering the pruning pass), perform the exchange, and on
success append the assistant content and return the decoded decision. -/
def call_gpt_api (history : List Entry) (current_state : String)
    (user_voice : String) (image_base64 : Option String)
    (outcome : OracleOutcome) : List Entry × Option AJson :=
  let h1 := update_history history "user" (userMessage current_state user_voice image_base64)
  match outcome with
  | .failure => (h1, none)
  | .badContent raw => (update_history h1 "assistant" (Content.rawStr raw), none)
  | .ok a => (update_history h1 "assistant" (Content.jsonStr a), some a)

/-- The post-oracle tail of a `run` cycle. -/
structure StepResult where
  current_state : String
  timers : List Timer
  loopBreak : Bool
  spoken : Option String
deriving DecidableEq

/-- The response-processing tail of one `run` cycle
(assistance.py:391-422): `if not response: continue` (nothing applied);
otherwise arm a requested timer (`if timer_name and timer_duration`,
i.e. name non-empty and duration non-zero), speak non-empty speech, and
apply the transition logic. -/
def processResponse (current : String) (timers : List Timer) (now : Int)
    (resp : Option AJson) : StepResult :=
  match resp with
  | none => ⟨current, timers, false, none⟩
  | some r =>
    let timers2 :=
      match r.timer_name, r.timer_duration with
      | some n, some d =>
        if n != "" && d != 0 then timers ++ [⟨n, now + d⟩] else timers
      | _, _ => timers
    let spoken := if r.speech_output != "" then some r.speech_output else none
    let tr := applyTransition current r.next_state
    ⟨tr.1, timers2, tr.2, spoken⟩

/-- One observable action of the speaker worker thread / microphone
flag pair (peripheral.py). -/
inductive AudioEvent
  | micPause
  | micResume
  | playingFlag (b : Bool)
  | playAudio (text : String)
deriving DecidableEq

/-- Embedding of `Speaker._speak_one` (peripheral.py:78-138) as its event trace on the
success path: pause the microphone (only when one was wired in), raise
the playing flag, produce the audio output, and in the `finally` block
clear the flag and resume the microphone (again only when wired). -/
def speakOne (hasMic : Bool) (text : String) : List AudioEvent :=
  (if hasMic then [AudioEvent.micPause] else []) ++
  [AudioEvent.playingFlag true, AudioEvent.playAudio text, AudioEvent.playingFlag false] ++
  (if hasMic then [AudioEvent.micResume] else [])

/-- Embedding of `Speaker._play_worker` (peripheral.py:140-150): the worker drains the
queued utterances in FIFO order, running `_speak_one` to completion on
each before pulling the next; the cycle's trace is the concatenation. -/
def playWorker (hasMic : Bool) (texts : List String) : List AudioEvent :=
  (texts.map (speakOne hasMic)).flatten

/-- Walk a trace tracking the microphone pause flag (initially the given
value) and record the flag's state at each audio-output event. -/
def pausedAtPlays : List AudioEvent → Bool → List Bool
  | [], _ => []
  | AudioEvent.micPause :: rest, _ => pausedAtPlays rest true
  | AudioEvent.micResume :: rest, _ => pausedAtPlays rest false
  | AudioEvent.playAudio _ :: rest, paused => paused :: pausedAtPlays rest paused
  | AudioEvent.playingFlag _ :: rest, paused => pausedAtPlays rest paused

/-- The coordinator's wiring (assistance.py:31): `self.speaker =
Speaker()` — the `microphone` parameter of `peripheral.Speaker.__init__`
(peripheral.py:29-39) is left at its default `None`, so the worker's
pause/resume calls are skipped. -/
def assistantSpeakerHasMic : Bool := false

/-- One monitoring turn against the ledger: the user turn request is
appended, then the assistant decision (`update_history` is called with
these roles in this order by `call_gpt_api`). -/
def monCycle (u : Content) (a : AJson) (h : List Entry) : List Entry :=
  update_history (update_history h "user" u) "assistant" (Content.jsonStr a)

/-- The ledger after n monitoring turns starting from the empty ledger. -/
def monLedger (u : Content) (a : AJson) : Nat → List Entry
  | 0 => []
  | n + 1 => monCycle u a (monLedger u a n)

/-- The `allowedNext` set of a state, empty for a name absent from the
table. -/
def validNextOf (n : String) : List String :=
  ((lookupState n).map State.valid_next_states).getD []

/-- The collapsed decision after n merges: counter n, tag `* n`,
other fields as delivered by the oracle. -/
def mergedA (a : AJson) (n : Nat) : AJson :=
  { a with monitor_count := some n,
           debug_note := "MONITORING_NO_CHANGE * " ++ toString n }

/-- The candidate indices the pruning pass strips (`indices[:-3]`). -/
def prunedIdxs (h : List Entry) : List Nat :=
  (candIdxs h).take ((candIdxs h).length - 3)

/-- The candidate indices the pruning pass keeps (the up-to-3 most
recent). -/
def keptIdxs (h : List Entry) : List Nat :=
  (candIdxs h).drop ((candIdxs h).length - 3)

/-- Whether an entry still carries an image attachment. -/
def hasImageItem (e : Entry) : Bool :=
  match e.content with
  | Content.items l => l.any (fun it => it.itemType == "image_url")
  | _ => false

/-- Whether an entry's content list ends with the pruning placeholder. -/
def endsWithPlaceholder (e : Entry) : Bool :=
  match e.content with
  | Content.items l => l.getLast? == some placeholderItem
  | _ => false

/-- A monitoring-state user entry carrying an image, used as a concrete
witness payload. -/
def acImgEntry : Entry :=
  ⟨"user", Content.items [Item.textCtx ⟨"ACTIVE_COOKING", "", true⟩,
                          Item.imageUrl "img"]⟩

/-! ## Claim theorems -/

/-- C5 (code_bug evidence): a decision naming FINISHED does not stop the
loop.  The run loop's `elif next_state == "FINISHED": break` is dead
code: "FINISHED" is a key of the state table, so the first branch always
captures it and the transition is taken with the loop continuing; in
fact no decision whatsoever can make the loop break, so the closing
message and `camera.release()` after the loop are unreachable from a
decision. -/
theorem finished_decision_never_stops_loop :
    applyTransition "ACTIVE_COOKING" (some "FINISHED") = ("FINISHED", false) ∧
    ∀ (current : String) (ns : Option String), (applyTransition current ns).2 = false := by
  refine ⟨rfl, fun current ns => ?_⟩
  cases ns with
  | none => rfl
  | some x =>
    by_cases hm : x ∈ stateNames
    · simp [applyTransition, hm]
    · have hx : x ≠ "FINISHED" := fun he =>
        hm (he ▸ (by decide : ("FINISHED" : String) ∈ stateNames))
      simp [applyTransition, hm, hx]

/-- C1 (counterexample): in state START, a decision naming
ACTIVE_COOKING — which is not in START's `allowedNext` list — is applied
and changes the current state, because the run loop only checks
membership in the whole state table, never in `valid_next_states`. -/
theorem invalid_transition_is_taken :
    validNextOf "START" = ["INGREDIENT_SCAN"] ∧
    "ACTIVE_COOKING" ∉ validNextOf "START" ∧
    applyTransition "START" (some "ACTIVE_COOKING") = ("ACTIVE_COOKING", false) ∧
    "ACTIVE_COOKING" ≠ "START" := by
  refine ⟨rfl, by decide, rfl, by decide⟩

/-- C1 (amended): the decision's `next_state` is applied exactly when it
is a key of the state table; a name outside the table (and a missing
`next_state`) leaves the current state unchanged, breaks nothing and —
the function being total — raises no exception.  Membership in the
current state's `allowedNext` is never consulted. -/
theorem transition_guard_is_table_membership (current ns : String) :
    (stateNames.contains ns = true →
      applyTransition current (some ns) = (ns, false)) ∧
    (stateNames.contains ns = false →
      applyTransition current (some ns) = (current, false)) ∧
    applyTransition current none = (current, false) := by
  refine ⟨fun hc => ?_, fun hc => ?_, rfl⟩
  · have hm : ns ∈ stateNames := by simpa using hc
    simp [applyTransition, hm]
  · have hm : ns ∉ stateNames := by simpa using hc
    have hx : ns ≠ "FINISHED" := fun he =>
      hm (he ▸ (by decide : ("FINISHED" : String) ∈ stateNames))
    simp [applyTransition, hm, hx]

/-- Witness for `transition_guard_is_table_membership` at concrete
inputs. -/
theorem transition_guard_is_table_membership_witness :
    applyTransition "START" (some "INGREDIENT_SCAN") = ("INGREDIENT_SCAN", false) ∧
    applyTransition "START" (some "NO_SUCH_STATE") = ("START", false) :=
  ⟨(transition_guard_is_table_membership "START" "INGREDIENT_SCAN").1 (by decide),
   (transition_guard_is_table_membership "START" "NO_SUCH_STATE").2.1 (by decide)⟩

/-- C7: an assistant turn whose decoded status is no-change but whose
speech output is non-empty is appended verbatim and nothing is merged or
deleted, whatever the ledger (in particular whatever no-change entries
are adjacent): the merge condition requires empty speech. -/
theorem no_change_with_speech_never_merged (h : List Entry) (a : AJson)
    (hs : a.speech_output ≠ "") :
    update_history h "assistant" (Content.jsonStr a) =
      h ++ [⟨"assistant", Content.jsonStr a⟩] := by
  have hb : (a.speech_output == "") = false := by
    cases hbe : a.speech_output == ""
    · rfl
    · exact absurd (eq_of_beq hbe) hs
  simp [update_history, hb]

/-- Witness for `no_change_with_speech_never_merged`: a hazard warning
turn right after another no-change turn is kept as its own entry. -/
theorem no_change_with_speech_never_merged_witness :
    update_history
      [⟨"user", Content.items []⟩,
       ⟨"assistant", Content.jsonStr { status := "MONITORING_NO_CHANGE" }⟩,
       ⟨"user", Content.items []⟩]
      "assistant"
      (Content.jsonStr { status := "MONITORING_NO_CHANGE", speech_output := "小心燙" }) =
      [⟨"user", Content.items []⟩,
       ⟨"assistant", Content.jsonStr { status := "MONITORING_NO_CHANGE" }⟩,
       ⟨"user", Content.items []⟩,
       ⟨"assistant", Content.jsonStr { status := "MONITORING_NO_CHANGE",
                                       speech_output := "小心燙" }⟩] :=
  no_change_with_speech_never_merged _ _ (by decide)

/-- C3 (code_bug evidence): with the coordinator's wiring —
`Speaker()` built without a microphone (assistance.py:31) — the worker
produces both queued utterances while the source's pause flag is still
clear, so the source is capturing during playback; and even with a
microphone wired in, the per-utterance `finally` block resumes the
source between two back-to-back utterances, so the source is not paused
for the union of their playback. -/
theorem playback_does_not_pause_source :
    pausedAtPlays (playWorker assistantSpeakerHasMic ["a", "b"]) false = [false, false] ∧
    playWorker true ["a", "b"] =
      [AudioEvent.micPause, AudioEvent.playingFlag true, AudioEvent.playAudio "a",
       AudioEvent.playingFlag false, AudioEvent.micResume,
       AudioEvent.micPause, AudioEvent.playingFlag true, AudioEvent.playAudio "b",
       AudioEvent.playingFlag false, AudioEvent.micResume] :=
  ⟨rfl, rfl⟩

/-- C2 (counterexample): a cycle whose oracle call fails does not leave
the ledger as it was — the user turn-request entry was appended before
the exchange.  From the empty ledger, a failed call leaves one entry. -/
theorem failed_cycle_mutates_ledger :
    (call_gpt_api [] "START" "hi" none OracleOutcome.failure).1 =
      [⟨"user", userMessage "START" "hi" none⟩] ∧
    (call_gpt_api [] "START" "hi" none OracleOutcome.failure).1 ≠ [] := by
  refine ⟨rfl, by decide⟩

/-- The pruning pass never changes the ledger's length. -/
theorem prune_length (h : List Entry) :
    (prune_active_cooking_images h).length = h.length := by
  unfold prune_active_cooking_images
  by_cases hg : 3 < (candIdxs h).length
  · simp [hg]
  · simp [hg]

/-- A user-role append grows the ledger by exactly one entry. -/
theorem update_history_user_length (h : List Entry) (c : Content) :
    (update_history h "user" c).length = h.length + 1 := by
  simp [update_history, prune_length]

/-- An assistant-role append of a non-decodable content string grows the
ledger by exactly one entry (the merge pass only fires on decodable
content). -/
theorem update_history_raw_length (h : List Entry) (s : String) :
    (update_history h "assistant" (Content.rawStr s)).length = h.length + 1 := by
  simp [update_history]

/-- C2 (amended): when the oracle call fails, no assistant decision is
returned, the decision-processing tail of the cycle leaves the FSM
state and the timer list untouched and speaks nothing, and the loop
proceeds — but the ledger has already gained the user turn-request
entry (one entry; two when a delivered content string fails to decode,
because the source appends the raw content before decoding it). -/
theorem oracle_failure_cycle (h : List Entry) (st uv : String)
    (img : Option String) (raw : String) (current : String)
    (timers : List Timer) (now : Int) :
    (call_gpt_api h st uv img OracleOutcome.failure).2 = none ∧
    (call_gpt_api h st uv img OracleOutcome.failure).1 =
      update_history h "user" (userMessage st uv img) ∧
    (call_gpt_api h st uv img OracleOutcome.failure).1.length = h.length + 1 ∧
    (call_gpt_api h st uv img (OracleOutcome.badContent raw)).2 = none ∧
    (call_gpt_api h st uv img (OracleOutcome.badContent raw)).1.length = h.length + 2 ∧
    processResponse current timers now none = ⟨current, timers, false, none⟩ := by
  refine ⟨rfl, rfl, ?_, rfl, ?_, rfl⟩
  · exact update_history_user_length h _
  · show (update_history (update_history h "user" _) "assistant" (Content.rawStr raw)).length = _
    rw [update_history_raw_length, update_history_user_length]

/-- C8 (counterexample): two armed timers may share a name; when both
have expired, one poll reports that name twice, contradicting
"never returns the same timer name twice". -/
theorem duplicate_timer_name_reported_twice :
    (checkTimersAux 5 [⟨"Pasta", 1⟩, ⟨"Pasta", 2⟩]).1 = ["Pasta", "Pasta"] ∧
    (checkTimersAux 5 [⟨"Pasta", 1⟩, ⟨"Pasta", 2⟩]).1.count "Pasta" ≠ 1 := by
  refine ⟨rfl, by decide⟩

/-- The reported-name list of one poll is the (reversed) name map of the
expired entries, in reverse registry order — one report per expired
entry. -/
theorem checkTimersAux_fst (now : Int) (ts : List Timer) :
    (checkTimersAux now ts).1 =
      ((ts.filter (fun t => t.end_time ≤ now)).map Timer.name).reverse := by
  induction ts with
  | nil => rfl
  | cons t ts ih =>
    by_cases hp : t.end_time ≤ now
    · simp [checkTimersAux, hp, ih]
    · simp [checkTimersAux, hp, ih]

/-- The surviving registry after one poll is exactly the unexpired
entries, order preserved. -/
theorem checkTimersAux_snd (now : Int) (ts : List Timer) :
    (checkTimersAux now ts).2 = ts.filter (fun t => !(decide (t.end_time ≤ now))) := by
  induction ts with
  | nil => rfl
  | cons t ts ih =>
    by_cases hp : t.end_time ≤ now
    · simp [checkTimersAux, hp, ih]
    · simp [checkTimersAux, hp, ih]

/-- Name-count bound for two disjoint selections from one registry. -/
theorem count_name_filter_disjoint (x : String) (p q : Timer → Bool)
    (hpq : ∀ t, p t = true → q t = true → False) (ts : List Timer) :
    ((ts.filter p).map Timer.name).count x + ((ts.filter q).map Timer.name).count x ≤
      (ts.map Timer.name).count x := by
  induction ts with
  | nil => simp
  | cons t ts ih =>
    cases hp : p t with
    | true =>
      have hq : q t = false := by
        cases hqe : q t
        · rfl
        · exact (hpq t hp hqe).elim
      by_cases hx : t.name = x <;>
        simp [List.filter_cons, hp, hq, List.count_cons, hx] <;> omega
    | false =>
      cases hq : q t with
      | true =>
        by_cases hx : t.name = x <;>
          simp [List.filter_cons, hp, hq, List.count_cons, hx] <;> omega
      | false =>
        by_cases hx : t.name = x <;>
          simp [List.filter_cons, hp, hq, List.count_cons, hx] <;> omega

/-- C8 (amended): one poll removes and reports exactly the expired
entries — the report is the name of each expired entry exactly once
(a name recurs only when several expired entries carry it), the
survivors are exactly the unexpired entries, and across two successive
polls the total number of reports of any name never exceeds the number
of registry entries bearing it, so no entry is reported twice and no
expiration missed. -/
theorem poll_expired_exact (now : Int) (ts : List Timer) :
    (checkTimersAux now ts).1 =
      ((ts.filter (fun t => t.end_time ≤ now)).map Timer.name).reverse ∧
    (checkTimersAux now ts).2 = ts.filter (fun t => !(decide (t.end_time ≤ now))) ∧
    ∀ (now' : Int) (x : String),
      (checkTimersAux now ts).1.count x +
        (checkTimersAux now' (checkTimersAux now ts).2).1.count x ≤
      (ts.map Timer.name).count x := by
  refine ⟨checkTimersAux_fst now ts, checkTimersAux_snd now ts, fun now' x => ?_⟩
  rw [checkTimersAux_fst, checkTimersAux_snd, checkTimersAux_fst,
      List.count_reverse, List.count_reverse, List.filter_filter]
  exact count_name_filter_disjoint x _ _
    (fun t hp hq => by
      simp only [Bool.and_eq_true, Bool.not_eq_true', decide_eq_true_eq,
        decide_eq_false_iff_not] at hp hq
      exact hq.2 hp) ts

/-- The poll loop returns the empty string when every tick is silent
(no ready signal, or an empty buffered reading). -/
theorem listen_all_silent (ticks : List MicTick)
    (h : ∀ tk ∈ ticks, tk.hasText = false ∨ tk.text = "") : listen ticks = "" := by
  induction ticks with
  | nil => rfl
  | cons tk rest ih =>
    have htk := h tk (List.mem_cons_self tk rest)
    have hrest := ih (fun u hu => h u (List.mem_cons_of_mem _ hu))
    rcases htk with h1 | h2
    · simp [listen, h1, hrest]
    · by_cases hh : tk.hasText = true
      · simp [listen, hh, h2, hrest]
      · have hh' : tk.hasText = false := by simpa using hh
        simp [listen, hh', hrest]

/-- The poll loop returns the first non-empty reading. -/
theorem listen_first_text (pre : List MicTick) (tk : MicTick) (post : List MicTick)
    (hpre : ∀ u ∈ pre, u.hasText = false ∨ u.text = "")
    (h1 : tk.hasText = true) (h2 : tk.text ≠ "") :
    listen (pre ++ tk :: post) = tk.text := by
  induction pre with
  | nil => simp [listen, h1, h2]
  | cons u pre ih =>
    have hu := hpre u (List.mem_cons_self u pre)
    have ih' := ih (fun v hv => hpre v (List.mem_cons_of_mem _ hv))
    rcases hu with hu1 | hu2
    · simpa [listen, hu1] using ih'
    · by_cases hh : u.hasText = true
      · simpa [listen, hh, hu2] using ih'
      · have hh' : u.hasText = false := by simpa using hh
        simpa [listen, hh'] using ih'

/-- C9: over the ticks of the 100ms poll loop that fit before the
timeout, `listen` (a) returns the empty string when no non-empty text
becomes available within the window, (b) returns the text of the first
tick offering a non-empty reading, and (c) in all cases either returns
the empty string or the non-empty text of some tick. -/
theorem listen_poll_spec (ticks : List MicTick) :
    ((∀ tk ∈ ticks, tk.hasText = false ∨ tk.text = "") → listen ticks = "") ∧
    (∀ pre tk post, ticks = pre ++ tk :: post →
      (∀ u ∈ pre, u.hasText = false ∨ u.text = "") →
      tk.hasText = true → tk.text ≠ "" →
      listen ticks = tk.text) ∧
    (listen ticks = "" ∨
      ∃ tk ∈ ticks, tk.hasText = true ∧ tk.text = listen ticks ∧ tk.text ≠ "") := by
  refine ⟨listen_all_silent ticks,
    fun pre tk post he hpre h1 h2 => he ▸ listen_first_text pre tk post hpre h1 h2, ?_⟩
  induction ticks with
  | nil => exact Or.inl rfl
  | cons tk rest ih =>
    by_cases hh : tk.hasText = true
    · by_cases ht : tk.text = ""
      · have : listen (tk :: rest) = listen rest := by simp [listen, hh, ht]
        rw [this]
        rcases ih with h | ⟨u, hu, h⟩
        · exact Or.inl h
        · exact Or.inr ⟨u, List.mem_cons_of_mem _ hu, h⟩
      · refine Or.inr ⟨tk, List.mem_cons_self tk rest, hh, ?_, ht⟩
        simp [listen, hh, ht]
    · have hh' : tk.hasText = false := by simpa using hh
      have : listen (tk :: rest) = listen rest := by simp [listen, hh']
      rw [this]
      rcases ih with h | ⟨u, hu, h⟩
      · exact Or.inl h
      · exact Or.inr ⟨u, List.mem_cons_of_mem _ hu, h⟩

/-- Witness for `listen_poll_spec`: a silent tick followed by a reading
returns that reading. -/
theorem listen_poll_spec_witness :
    listen [⟨false, ""⟩, ⟨true, "好了"⟩] = "好了" :=
  (listen_poll_spec [⟨false, ""⟩, ⟨true, "好了"⟩]).2.1
    [⟨false, ""⟩] ⟨true, "好了"⟩ [] rfl
    (by intro u hu; simp at hu; simp [hu]) rfl (by decide)

/-- C10 (counterexample): a reactive-mode cycle in which the timer poll
yields its notification only on the second wait iteration has already
invoked `listen` once in that same cycle, so the voice listen is not
skipped in every cycle whose poll yields a notification. -/
theorem timer_cycle_invoked_listen :
    reactiveWait [⟨none, [⟨false, ""⟩]⟩, ⟨some "[note]", []⟩] =
      some ⟨"[note]", true, 1⟩ ∧
    (reactiveWait [⟨none, [⟨false, ""⟩]⟩, ⟨some "[note]", []⟩]).map
      WaitResult.listenCalls ≠ some 0 :=
  ⟨rfl, by decide⟩

/-- A string with a non-empty literal on the left of `++` is non-empty. -/
theorem string_append_ne_empty (a b : String) (ha : a ≠ "") : a ++ b ≠ "" := by
  intro h0
  apply ha
  have hd : a.data ++ b.data = [] := by
    have := congrArg String.data h0
    simpa using this
  exact String.ext (by simpa using (List.append_eq_nil.mp hd).1)

/-- When the reactive wait loop ends on a timer notification, the ticks
split as: `listenCalls` many iterations whose poll was empty and whose
listen returned the empty string, then the iteration whose poll yielded
the notification that became `user_voice`. -/
theorem reactiveWait_timer_shape : ∀ (ticks : List ReactiveTick) (w : WaitResult),
    reactiveWait ticks = some w → w.fromTimer = true →
    ∃ pre tick rest, ticks = pre ++ tick :: rest ∧ pre.length = w.listenCalls ∧
      tick.timerPoll = some w.user_voice ∧
      ∀ u ∈ pre, u.timerPoll = none ∧ listen u.micTicks = "" := by
  intro ticks
  induction ticks with
  | nil => intro w hw; exact absurd hw (by simp [reactiveWait])
  | cons it rest ih =>
    intro w hw hft
    cases hp : it.timerPoll with
    | some nt =>
      simp only [reactiveWait, hp] at hw
      obtain rfl : w = ⟨nt, true, 0⟩ := (Option.some.inj hw).symm
      exact ⟨[], it, rest, rfl, rfl, hp, by simp⟩
    | none =>
      simp only [reactiveWait, hp] at hw
      by_cases hv : (listen it.micTicks == "") = true
      · rw [if_pos hv] at hw
        cases hw2 : reactiveWait rest with
        | none => rw [hw2] at hw; exact absurd hw (by simp)
        | some w' =>
          rw [hw2] at hw
          have hww : { w' with listenCalls := w'.listenCalls + 1 } = w := by
            simpa using hw
          subst hww
          have hft' : w'.fromTimer = true := by simpa using hft
          obtain ⟨pre, tick, rest', he, hlen, hpoll, hall⟩ := ih w' hw2 hft'
          refine ⟨it :: pre, tick, rest', by rw [he]; rfl, by simp [hlen], hpoll, ?_⟩
          intro u hu
          rcases List.mem_cons.mp hu with rfl | hu2
          · exact ⟨hp, eq_of_beq hv⟩
          · exact hall u hu2
      · rw [if_neg hv] at hw
        have hwe : w = ⟨listen it.micTicks, false, 1⟩ := (Option.some.inj hw).symm
        rw [hwe] at hft
        exact absurd hft (by simp)

/-- C10 (amended): a notification from the timer poll is always a
non-empty string, and in the ACTIVE_COOKING (proactive) gathering it
becomes `user_voice` with `listen` skipped and no capture; the turn
request then carries the notification in its `user_voice` field with
`image_provided = false` and no image attachment.  In the reactive
gathering the capture is likewise skipped and the notification becomes
`user_voice`, but `listen` may already have run earlier in the same
cycle — each such earlier call returned the empty string before the
poll that yielded. -/
theorem timer_notification_cycle (st note : String) (mt : List MicTick)
    (cam : Option String) (req : Bool) :
    activeGather (some note) mt cam req = ⟨note, none, 0⟩ ∧
    userMessage st note none = Content.items [Item.textCtx ⟨st, note, false⟩] ∧
    (∀ (ticks : List ReactiveTick) (w : WaitResult),
      reactiveWait ticks = some w → w.fromTimer = true →
      reactiveGather ticks cam req = some ⟨w.user_voice, none, w.listenCalls⟩ ∧
      ∃ pre tick rest, ticks = pre ++ tick :: rest ∧ pre.length = w.listenCalls ∧
        tick.timerPoll = some w.user_voice ∧
        ∀ u ∈ pre, u.timerPoll = none ∧ listen u.micTicks = "") ∧
    (∀ (now : Int) (tms : List Timer) (s : String),
      (check_timers now tms).1 = some s → s ≠ "") := by
  refine ⟨rfl, rfl,
    fun ticks w hw hft =>
      ⟨by simp [reactiveGather, hw, hft], reactiveWait_timer_shape ticks w hw hft⟩,
    fun now tms s hs => ?_⟩
  simp only [check_timers] at hs
  by_cases he : (checkTimersAux now tms).1.isEmpty = true
  · rw [if_pos he] at hs
    exact absurd hs (by simp)
  · rw [if_neg he] at hs
    have hx : s = _ := (Option.some.inj hs).symm
    rw [hx]
    exact string_append_ne_empty _ _
      (string_append_ne_empty _ _ (by decide))

/-- Witness for `timer_notification_cycle`: a reactive cycle whose
second iteration's poll yields a notification sends it as the voice
text, captures no image, and counts one earlier empty listen. -/
theorem timer_notification_cycle_witness :
    reactiveGather [⟨none, [⟨false, ""⟩]⟩, ⟨some "T done", []⟩] (some "img") true =
      some ⟨"T done", none, 1⟩ :=
  ((timer_notification_cycle "ACTIVE_COOKING" "T done" [] (some "img") true).2.2.1
    [⟨none, [⟨false, ""⟩]⟩, ⟨some "T done", []⟩] ⟨"T done", true, 1⟩ rfl rfl).1

/-- There are never more candidate indices than ledger entries. -/
theorem candIdxs_length_le (h : List Entry) : (candIdxs h).length ≤ h.length :=
  le_trans (List.length_filter_le _ _) (by simp)

/-- A ledger of at most 3 entries is left untouched by the pruning pass
(the `> 3` candidate guard cannot fire). -/
theorem prune_small (h : List Entry) (hl : h.length ≤ 3) :
    prune_active_cooking_images h = h := by
  unfold prune_active_cooking_images
  have hg : ¬ 3 < (candIdxs h).length := by
    have := candIdxs_length_le h
    omega
  simp [hg]

/-- A user-role append is an append followed by the pruning pass. -/
theorem update_history_user_eq (h : List Entry) (c : Content) :
    update_history h "user" c = prune_active_cooking_images (h ++ [⟨"user", c⟩]) := rfl

/-- On a short ledger a user-role append is a plain append. -/
theorem update_history_user_small (h : List Entry) (c : Content) (hl : h.length ≤ 2) :
    update_history h "user" c = h ++ [⟨"user", c⟩] := by
  rw [update_history_user_eq, prune_small _ (by simp; omega)]

/-- The first monitoring turn appends the pair unmerged: the ledger is
too short for the merge condition. -/
theorem monCycle_start (u : Content) (a : AJson) :
    monCycle u a [] = [⟨"user", u⟩, ⟨"assistant", Content.jsonStr a⟩] := by
  unfold monCycle
  rw [update_history_user_small [] u (by simp)]
  simp [update_history]

/-- One monitoring turn on a collapsed two-entry ledger merges: the
counter is the previous counter (default 1) plus one, the tag is
rewritten, and the previous user+assistant pair is deleted while the
just-appended user entry stays. -/
theorem monCycle_step (u : Content) (a j : AJson)
    (hj : j.status = "MONITORING_NO_CHANGE")
    (ha1 : a.status = "MONITORING_NO_CHANGE") (ha2 : a.speech_output = "") :
    monCycle u a [⟨"user", u⟩, ⟨"assistant", Content.jsonStr j⟩] =
      [⟨"user", u⟩,
       ⟨"assistant", Content.jsonStr (mergedA a (j.monitor_count.getD 1 + 1))⟩] := by
  unfold monCycle
  rw [update_history_user_small _ u (by simp)]
  simp [update_history, ha1, ha2, hj, delNeg, List.getD, mergedA]

/-- After n ≥ 2 monitoring turns from the empty ledger, the ledger is
exactly the last user entry plus one collapsed assistant entry with
counter n and tag `* n`. -/
theorem monLedger_closed (u : Content) (a : AJson)
    (ha1 : a.status = "MONITORING_NO_CHANGE") (ha2 : a.speech_output = "")
    (ha3 : a.monitor_count = none) (n : Nat) (hn : 2 ≤ n) :
    monLedger u a n =
      [⟨"user", u⟩, ⟨"assistant", Content.jsonStr (mergedA a n)⟩] := by
  induction n, hn using Nat.le_induction with
  | base =>
    show monCycle u a (monCycle u a (monLedger u a 0)) = _
    have h0 : monLedger u a 0 = [] := rfl
    rw [h0, monCycle_start, monCycle_step u a a ha1 ha1 ha2, ha3]
    rfl
  | succ n hn ih =>
    show monCycle u a (monLedger u a n) = _
    rw [ih, monCycle_step u a (mergedA a n) (by simp [mergedA, ha1]) ha1 ha2]
    simp [mergedA]

/-- C4: for every N ≥ 2, appending N consecutive no-change, no-speech
assistant turns (each preceded by its user turn-request entry) starting
from the empty ledger leaves exactly one collapsed assistant entry with
`monitor_count = N` and tag `"MONITORING_NO_CHANGE * N"`, preceded only
by the just-appended user entry — each merge deleted the previous
user+assistant pair. -/
theorem repeated_no_change_collapses (u : Content) (a : AJson) (n : Nat)
    (hn : 2 ≤ n) (ha1 : a.status = "MONITORING_NO_CHANGE")
    (ha2 : a.speech_output = "") (ha3 : a.monitor_count = none) :
    monLedger u a n =
      [⟨"user", u⟩,
       ⟨"assistant", Content.jsonStr
         { a with monitor_count := some n,
                  debug_note := "MONITORING_NO_CHANGE * " ++ toString n }⟩] ∧
    ((monLedger u a n).filter (fun e => e.role == "assistant")).length = 1 := by
  have hc := monLedger_closed u a ha1 ha2 ha3 n hn
  refine ⟨hc, ?_⟩
  rw [hc]
  simp [mergedA]

/-- Witness for `repeated_no_change_collapses` at N = 3. -/
theorem repeated_no_change_collapses_witness :
    monLedger (Content.items []) { status := "MONITORING_NO_CHANGE" } 3 =
      [⟨"user", Content.items []⟩,
       ⟨"assistant", Content.jsonStr
         { status := "MONITORING_NO_CHANGE", monitor_count := some 3,
           debug_note := "MONITORING_NO_CHANGE * 3" }⟩] ∧
    ((monLedger (Content.items []) { status := "MONITORING_NO_CHANGE" } 3).filter
      (fun e => e.role == "assistant")).length = 1 :=
  repeated_no_change_collapses (Content.items []) { status := "MONITORING_NO_CHANGE" } 3
    (by decide) rfl rfl rfl

/-- Candidate-index membership characterization. -/
theorem mem_candIdxs (h : List Entry) (i : Nat) :
    i ∈ candIdxs h ↔ i < h.length ∧ isACImageEntry (h.getD i default) = true := by
  simp [candIdxs, List.mem_filter, List.mem_range]

/-- The candidate index list has no duplicates. -/
theorem candIdxs_nodup (h : List Entry) : (candIdxs h).Nodup :=
  (List.nodup_range h.length).filter _

/-- The pruning pass is the identity when at most 3 candidates exist. -/
theorem prune_of_few_candidates (h : List Entry)
    (hc : (candIdxs h).length ≤ 3) : prune_active_cooking_images h = h := by
  unfold prune_active_cooking_images
  have hg : ¬ 3 < (candIdxs h).length := by omega
  simp [hg]

/-- A to-be-pruned index is a candidate, and its existence forces the
candidate guard. -/
theorem prunedIdxs_facts (h : List Entry) (i : Nat) (hi : i ∈ prunedIdxs h) :
    i ∈ candIdxs h ∧ 3 < (candIdxs h).length := by
  refine ⟨(List.take_sublist _ _).subset hi, ?_⟩
  by_contra hg
  have h0 : (candIdxs h).length - 3 = 0 := by omega
  rw [prunedIdxs, h0, List.take_zero] at hi
  exact absurd hi (List.not_mem_nil i)

/-- Value of the pruned ledger at a stripped index. -/
theorem prune_getD_of_mem (h : List Entry) (i : Nat) (hi : i ∈ prunedIdxs h) :
    (prune_active_cooking_images h).getD i default = stripImage (h.getD i default) := by
  obtain ⟨hiC, hg⟩ := prunedIdxs_facts h i hi
  have hlt : i < h.length := ((mem_candIdxs h i).mp hiC).1
  have hi' : i ∈ (candIdxs h).take ((candIdxs h).length - 3) := hi
  unfold prune_active_cooking_images
  simp only [hg, if_true, List.getD_eq_getElem?_getD, List.getElem?_mapIdx,
    List.getElem?_eq_getElem hlt, Option.map_some, Option.getD_some]
  simp [hi']

/-- Value of the pruned ledger at an untouched index. -/
theorem prune_getD_of_not_mem (h : List Entry) (i : Nat) (hlt : i < h.length)
    (hni : i ∉ prunedIdxs h) :
    (prune_active_cooking_images h).getD i default = h.getD i default := by
  by_cases hg : 3 < (candIdxs h).length
  · have hni' : i ∉ (candIdxs h).take ((candIdxs h).length - 3) := hni
    unfold prune_active_cooking_images
    simp only [hg, if_true, List.getD_eq_getElem?_getD, List.getElem?_mapIdx,
      List.getElem?_eq_getElem hlt, Option.map_some, Option.getD_some]
    simp [hni']
  · rw [prune_of_few_candidates h (by omega)]

/-- A filtered-out item type cannot reappear under `any`. -/
theorem filter_no_image (l : List Item) :
    ((l.filter (fun it => it.itemType != "image_url")).any
      (fun it => it.itemType == "image_url")) = false := by
  rw [List.any_eq_false]
  intro a ha
  have h2 := (List.mem_filter.mp ha).2
  simp only [bne_iff_ne, ne_eq] at h2
  simp [h2]

/-- A stripped entry carries no image attachment. -/
theorem hasImageItem_stripImage (e : Entry) :
    hasImageItem (stripImage e) = false := by
  rcases e with ⟨r, c⟩
  cases c with
  | items l =>
    simp only [stripImage, hasImageItem, List.any_append]
    rw [filter_no_image]
    simp [placeholderItem, Item.itemType]
  | jsonStr j => rfl
  | rawStr s => rfl

/-- A stripped entry is no longer a pruning candidate. -/
theorem isACImageEntry_stripImage (e : Entry) :
    isACImageEntry (stripImage e) = false := by
  rcases e with ⟨r, c⟩
  cases c with
  | items l =>
    simp only [isACImageEntry, stripImage, List.any_append]
    rw [filter_no_image]
    simp [placeholderItem, Item.itemType]
  | jsonStr j => simp [isACImageEntry, stripImage]
  | rawStr s => simp [isACImageEntry, stripImage]

/-- Stripping a candidate leaves its content ending in the placeholder. -/
theorem endsWithPlaceholder_stripImage (e : Entry)
    (he : isACImageEntry e = true) :
    endsWithPlaceholder (stripImage e) = true := by
  rcases e with ⟨r, c⟩
  cases c with
  | items l =>
    simp [endsWithPlaceholder, stripImage, List.getLast?_concat]
  | jsonStr j => simp [isACImageEntry] at he
  | rawStr s => simp [isACImageEntry] at he

/-- After the pass, an index holds a candidate entry exactly when it is
one of the up-to-3 most recent candidates. -/
theorem prune_isAC_iff (h : List Entry) (i : Nat) (hlt : i < h.length) :
    isACImageEntry ((prune_active_cooking_images h).getD i default) = true ↔
      i ∈ keptIdxs h := by
  by_cases hp : i ∈ prunedIdxs h
  · rw [prune_getD_of_mem h i hp, isACImageEntry_stripImage]
    constructor
    · intro hfalse
      exact absurd hfalse (by simp)
    · intro hk
      exact (List.disjoint_take_drop (candIdxs_nodup h) (le_refl _) hp hk).elim
  · rw [prune_getD_of_not_mem h i hlt hp]
    constructor
    · intro hac
      have hiC : i ∈ candIdxs h := (mem_candIdxs h i).mpr ⟨hlt, hac⟩
      have hsplit := List.take_append_drop ((candIdxs h).length - 3) (candIdxs h)
      rw [← hsplit] at hiC
      rcases List.mem_append.mp hiC with hmem | hmem
      · exact absurd hmem hp
      · exact hmem
    · intro hk
      have hiC : i ∈ candIdxs h := (List.drop_sublist _ _).subset hk
      exact ((mem_candIdxs h i).mp hiC).2

/-- The pruning pass is idempotent. -/
theorem prune_idem (h : List Entry) :
    prune_active_cooking_images (prune_active_cooking_images h) =
      prune_active_cooking_images h := by
  by_cases hg : 3 < (candIdxs h).length
  · apply prune_of_few_candidates
    have hsub : candIdxs (prune_active_cooking_images h) ⊆ keptIdxs h := by
      intro j hj
      have hj' := (mem_candIdxs _ j).mp hj
      rw [prune_length] at hj'
      exact (prune_isAC_iff h j hj'.1).mp hj'.2
    have hle := ((candIdxs_nodup _).subperm hsub).length_le
    have hkl : (keptIdxs h).length = 3 := by
      rw [keptIdxs, List.length_drop]
      omega
    omega
  · rw [prune_of_few_candidates h (by omega), prune_of_few_candidates h (by omega)]

/-- C6: the pruning pass — run after every user-role append — leaves
every entry outside `indices[:-3]` byte-for-byte unchanged (in
particular every entry without an image and every entry not recorded in
ACTIVE_COOKING), rewrites exactly the older candidates by dropping
their image items and appending the textual placeholder, leaves an
entry satisfying the image-and-monitoring-state test exactly at the
up-to-3 most recent candidate indices, and is idempotent. -/
theorem attachment_eviction_correct (h : List Entry) :
    (∀ c : Content, update_history h "user" c =
        prune_active_cooking_images (h ++ [⟨"user", c⟩])) ∧
    (∀ i, i < h.length → i ∉ prunedIdxs h →
        (prune_active_cooking_images h).getD i default = h.getD i default) ∧
    (∀ i, i ∈ prunedIdxs h →
        (prune_active_cooking_images h).getD i default =
          stripImage (h.getD i default) ∧
        hasImageItem ((prune_active_cooking_images h).getD i default) = false ∧
        endsWithPlaceholder ((prune_active_cooking_images h).getD i default) = true) ∧
    (∀ i, i < h.length →
        (isACImageEntry ((prune_active_cooking_images h).getD i default) = true ↔
          i ∈ keptIdxs h)) ∧
    prune_active_cooking_images (prune_active_cooking_images h) =
      prune_active_cooking_images h := by
  refine ⟨fun c => rfl, prune_getD_of_not_mem h, fun i hi => ?_,
    prune_isAC_iff h, prune_idem h⟩
  have hiC := (prunedIdxs_facts h i hi).1
  have hac := ((mem_candIdxs h i).mp hiC).2
  refine ⟨prune_getD_of_mem h i hi, ?_, ?_⟩
  · rw [prune_getD_of_mem h i hi]
    exact hasImageItem_stripImage _
  · rw [prune_getD_of_mem h i hi]
    exact endsWithPlaceholder_stripImage _ hac

/-- Witness for `attachment_eviction_correct` on a five-candidate
ledger: index 0 is stripped, and re-running the pass changes nothing. -/
theorem attachment_eviction_correct_witness :
    (prune_active_cooking_images
        [acImgEntry, acImgEntry, acImgEntry, acImgEntry, acImgEntry]).getD 0 default =
      stripImage acImgEntry ∧
    prune_active_cooking_images (prune_active_cooking_images
        [acImgEntry, acImgEntry, acImgEntry, acImgEntry, acImgEntry]) =
      prune_active_cooking_images
        [acImgEntry, acImgEntry, acImgEntry, acImgEntry, acImgEntry] :=
  ⟨((attachment_eviction_correct
      [acImgEntry, acImgEntry, acImgEntry, acImgEntry, acImgEntry]).2.2.1 0
      (by decide)).1,
   (attachment_eviction_correct
      [acImgEntry, acImgEntry, acImgEntry, acImgEntry, acImgEntry]).2.2.2.2⟩

end Cooking
